import Mathlib

/-!
# Verification of the `wat` table / element-segment grammar

A shallow embedding of `crates/wast/src/ast/table.rs`: the parse routines
`Table::parse`, `Elem::parse`, `ElemPayload::parse` and
`ElemPayload::parse_tail`, over a flat token stream with the parser-core
primitives (single- and two-token lookahead, scoped parenthesis matching)
that the source builds on.
-/

namespace Wat

/-- A token of the textual format: parentheses, reserved words, `$`-prefixed
identifiers, number literals and string literals. -/
inductive Token
  | lparen
  | rparen
  | kw (s : String)
  | id (s : String)
  | num (n : Nat)
  | str (s : String)
deriving DecidableEq, Repr

/-- Parser-core state: the remaining token stream together with the index of
the next token in the original stream (its position, used for error spans). -/
structure PState where
  toks : List Token
  pos : Nat
deriving DecidableEq, Repr

/-- Modelled from the spec: the error taxonomy of the parser core.
`expectedOneOf` is the "expected one of {set}" error synthesized by the
lookahead-set helper; `expectedToken` a single-token expectation failure;
`trailing` the unconsumed-input failure of scoped parenthesis matching. -/
inductive PError
  | expectedOneOf (pos : Nat)
  | expectedToken (what : String) (pos : Nat)
  | trailing (pos : Nat)
deriving DecidableEq, Repr

/-- A parse routine: consumes from the state, returns a value and the rest,
or an error. -/
abbrev P (α : Type) := PState → Except PError (α × PState)

/-- Advance past one token. -/
def advance (st : PState) : PState :=
  ⟨st.toks.tail, st.pos + 1⟩

/-- Modelled from the spec: `peek` for a keyword — could the next token start
this keyword, without consuming. -/
def peekKw (k : String) (st : PState) : Bool :=
  st.toks.head? = some (Token.kw k)

/-- Modelled from the spec: `peek2` for a keyword — looks one token further
ahead than `peekKw`. -/
def peek2Kw (k : String) (st : PState) : Bool :=
  st.toks.tail.head? = some (Token.kw k)

/-- Modelled from the spec: `peek::<LParen>` — is the next token an opening
parenthesis. -/
def peekLParen (st : PState) : Bool :=
  st.toks.head? = some Token.lparen

/-- Modelled from the spec: `peek::<u32>` — is the next token a bare number. -/
def peekNum (st : PState) : Bool :=
  match st.toks.head? with
  | some (Token.num _) => true
  | _ => false

/-- Modelled from the spec: inside a parenthesized group, the cursor is empty
when the next token closes the group (or the input ends). -/
def isEmptyP (st : PState) : Bool :=
  match st.toks with
  | [] => true
  | Token.rparen :: _ => true
  | _ => false

/-- Consume one specific keyword or fail. -/
def expectKw (k : String) : P Unit := fun st =>
  match st.toks with
  | Token.kw s :: _ =>
    if s = k then .ok ((), advance st) else .error (.expectedToken k st.pos)
  | _ => .error (.expectedToken k st.pos)

/-- Parse an optional `$`-identifier (`Option<ast::Id>`): consume it when
present, yield `none` otherwise. -/
def parseIdOpt : P (Option String) := fun st =>
  match st.toks with
  | Token.id s :: _ => .ok (some s, advance st)
  | _ => .ok (none, st)

/-- Parse a string literal. -/
def parseStr : P String := fun st =>
  match st.toks with
  | Token.str s :: _ => .ok (s, advance st)
  | _ => .error (.expectedToken "string" st.pos)

/-- Parse a bare number (`u32`). -/
def parseU32 : P Nat := fun st =>
  match st.toks with
  | Token.num n :: _ => .ok (n, advance st)
  | _ => .error (.expectedToken "u32" st.pos)

/-- Modelled from the spec: `parens(f)` enters a `(...)` group, runs `f` on
the interior, and fails if unconsumed input remains when `f` returns. -/
def parens {α : Type} (f : P α) : P α := fun st =>
  match st.toks with
  | Token.lparen :: _ =>
    match f (advance st) with
    | .ok (a, st') =>
      match st'.toks with
      | Token.rparen :: _ => .ok (a, advance st')
      | _ => .error (.trailing st'.pos)
    | .error e => .error e
  | _ => .error (.expectedToken "(" st.pos)

/-- `ast::TableElemType`: the element type of a table. -/
inductive TableElemType
  | funcref
  | anyref
deriving DecidableEq, Repr

/-- Could the next token start a `TableElemType` (`peek::<TableElemType>`). -/
def peekElemType (st : PState) : Bool :=
  peekKw "funcref" st || peekKw "anyref" st

/-- Parse a `TableElemType` token. -/
def parseElemType : P TableElemType := fun st =>
  match st.toks with
  | Token.kw "funcref" :: _ => .ok (.funcref, advance st)
  | Token.kw "anyref" :: _ => .ok (.anyref, advance st)
  | _ => .error (.expectedToken "element type" st.pos)

/-- `Option<ast::TableElemType>`: parse the element type when the next token
starts one. -/
def parseElemTypeOpt : P (Option TableElemType) := fun st =>
  if peekElemType st then
    match parseElemType st with
    | .ok (t, st') => .ok (some t, st')
    | .error e => .error e
  else .ok (none, st)

/-- `ast::Index`: either a resolved ordinal number or an unresolved symbolic
id — both variants coexist until a later resolution pass. -/
inductive Index
  | Num (n : Nat)
  | Id (s : String)
deriving DecidableEq, Repr

/-- Parse an `Index`: a bare number yields `Num`, a `$`-identifier `Id`. -/
def parseIndex : P Index := fun st =>
  match st.toks with
  | Token.num n :: _ => .ok (.Num n, advance st)
  | Token.id s :: _ => .ok (.Id s, advance st)
  | _ => .error (.expectedToken "index" st.pos)

/-- Modelled from the spec: table size limits (minimum, optional maximum). -/
structure Limits where
  min : Nat
  max : Option Nat
deriving DecidableEq, Repr

/-- Modelled from the spec: `ast::TableType` — size limits plus element
type. -/
structure TableType where
  limits : Limits
  elem : TableElemType
deriving DecidableEq, Repr

/-- Parse a `TableType`: required minimum, optional maximum, element type. -/
def parseTableType : P TableType := fun st =>
  match parseU32 st with
  | .error e => .error e
  | .ok (mn, st) =>
    match (if peekNum st then
            match parseU32 st with
            | .ok (mx, st') => Except.ok (some mx, st')
            | .error e => Except.error e
          else Except.ok (none, st) :
          Except PError (Option Nat × PState)) with
    | .error e => .error e
    | .ok (mx, st) =>
      match parseElemType st with
      | .error e => .error e
      | .ok (et, st) => .ok (⟨⟨mn, mx⟩, et⟩, st)

/-- Modelled from the spec: a constant offset expression. The parser captures
the instruction tokens of the group verbatim; `takeBalanced` splits a stream
at the first group-closing parenthesis, keeping nesting balanced. -/
def takeBalanced : List Token → Nat → Option (List Token × List Token)
  | [], 0 => some ([], [])
  | [], _ + 1 => none
  | Token.rparen :: rest, 0 => some ([], Token.rparen :: rest)
  | Token.rparen :: rest, d + 1 =>
    (takeBalanced rest d).map (fun p => (Token.rparen :: p.1, p.2))
  | Token.lparen :: rest, d =>
    (takeBalanced rest (d + 1)).map (fun p => (Token.lparen :: p.1, p.2))
  | t :: rest, d =>
    (takeBalanced rest d).map (fun p => (t :: p.1, p.2))

/-- Modelled from the spec: `ast::Expression`, a constant-folding offset
expression; kept as the verbatim token sequence of its instructions. -/
structure Expression where
  instrs : List Token
deriving DecidableEq, Repr

/-- Modelled from the spec: `Expression::parse` consumes instructions until
the enclosing group closes. -/
def parseExpression : P Expression := fun st =>
  match takeBalanced st.toks 0 with
  | some (c, r) => .ok (⟨c⟩, ⟨r, st.pos + c.length⟩)
  | none => .error (.expectedToken ")" st.pos)

/-- `ElemPayload`: either a contiguous list of function indices, or a list of
optional function indices written as `ref.func` / `ref.null` expressions,
carrying the desired element type. -/
inductive ElemPayload
  | Indices (indices : List Index)
  | Exprs (ty : TableElemType) (exprs : List (Option Index))
deriving DecidableEq, Repr

/-- One entry of the expression-list payload: a parenthesized group whose
head is dispatched by a lookahead set — `ref.null` (no further argument)
yields an absent entry, `ref.func <index>` a present one, anything else the
lookahead-set error. -/
def parseExprEntry : P (Option Index) :=
  parens (fun p =>
    if peekKw "ref.null" p then
      match expectKw "ref.null" p with
      | .ok (_, p') => .ok (none, p')
      | .error e => .error e
    else if peekKw "ref.func" p then
      match expectKw "ref.func" p with
      | .ok (_, p') =>
        match parseIndex p' with
        | .ok (i, p'') => .ok (some i, p'')
        | .error e => .error e
      | .error e => .error e
    else .error (.expectedOneOf p.pos))

/-- The `while !parser.is_empty()` loop collecting expression-list entries.
The fuel argument is instantiated with the stream length; each iteration
consumes at least one token, so it never runs out first. -/
def parseExprList : Nat → P (List (Option Index))
  | 0 => fun st =>
    if isEmptyP st then .ok ([], st) else .error (.expectedToken ")" st.pos)
  | fuel + 1 => fun st =>
    if isEmptyP st then .ok ([], st)
    else
      match parseExprEntry st with
      | .error e => .error e
      | .ok (e, st') =>
        match parseExprList fuel st' with
        | .error e => .error e
        | .ok (es, st'') => .ok (e :: es, st'')

/-- The `while !parser.is_empty()` loop collecting plain indices. -/
def parseIndexList : Nat → P (List Index)
  | 0 => fun st =>
    if isEmptyP st then .ok ([], st) else .error (.expectedToken ")" st.pos)
  | fuel + 1 => fun st =>
    if isEmptyP st then .ok ([], st)
    else
      match parseIndex st with
      | .error e => .error e
      | .ok (i, st') =>
        match parseIndexList fuel st' with
        | .error e => .error e
        | .ok (is, st'') => .ok (i :: is, st'')

/-- `ElemPayload::parse_tail`: when the caller already established an element
type, the payload is the expression list carrying that type; otherwise an
optional leading `func` keyword is consumed and the remainder is a flat list
of indices. -/
def ElemPayload.parse_tail (ty : Option TableElemType) : P ElemPayload :=
  fun st =>
  match ty with
  | some ty =>
    match parseExprList st.toks.length st with
    | .ok (es, st') => .ok (.Exprs ty es, st')
    | .error e => .error e
  | none =>
    let st1 := if peekKw "func" st then advance st else st
    match parseIndexList st1.toks.length st1 with
    | .ok (is, st') => .ok (.Indices is, st')
    | .error e => .error e

/-- `ElemPayload::parse` (the standalone entry point): first parse an
optional element type at the head of the input, then hand it to
`parse_tail`. -/
def ElemPayload.parse : P ElemPayload := fun st =>
  match parseElemTypeOpt st with
  | .ok (ty, st') => ElemPayload.parse_tail ty st'
  | .error e => .error e

/-- `ElemKind`: a passive segment, or an active one carrying the target
table index and the offset expression. -/
inductive ElemKind
  | Passive
  | Active (table : Index) (offset : Expression)
deriving DecidableEq, Repr

/-- `ast::Elem`: an element segment — span of the `elem` keyword, optional
name, kind, payload. -/
structure Elem where
  span : Nat
  name : Option String
  kind : ElemKind
  payload : ElemPayload
deriving DecidableEq, Repr

/-- The target-table lookahead of `Elem::parse`: if the second token is the
`table` keyword, an explicit index is parsed from the nested group; else a
bare number is the target index directly; else no target is given. -/
def parseElemTarget : P (Option Index) := fun st =>
  if peek2Kw "table" st then
    match parens (fun p =>
      match expectKw "table" p with
      | .ok (_, p') => parseIndex p'
      | .error e => .error e) st with
    | .ok (i, st') => .ok (some i, st')
    | .error e => .error e
  else if peekNum st then
    match parseU32 st with
    | .ok (n, st') => .ok (some (Index.Num n), st')
    | .error e => .error e
  else .ok (none, st)

/-- The offset group of an active segment: a parenthesized constant
expression, optionally preceded by the (discarded) keyword `offset`. -/
def parseElemOffset : P Expression :=
  parens (fun p =>
    parseExpression (if peekKw "offset" p then advance p else p))

/-- The kind decision of `Elem::parse`: active if and only if the next token
is a number or opens a parenthesis; the target defaults to index 0. -/
def parseElemKind : P ElemKind := fun st =>
  if peekNum st || peekLParen st then
    match parseElemTarget st with
    | .error e => .error e
    | .ok (tbl, st') =>
      match parseElemOffset st' with
      | .error e => .error e
      | .ok (off, st'') =>
        .ok (.Active (tbl.getD (Index.Num 0)) off, st'')
  else .ok (.Passive, st)

/-- `Elem::parse`: keyword `elem`, optional name, kind decision, payload. -/
def Elem.parse : P Elem := fun st =>
  match expectKw "elem" st with
  | .error e => .error e
  | .ok (_, st1) =>
    match parseIdOpt st1 with
    | .error e => .error e
    | .ok (name, st2) =>
      match parseElemKind st2 with
      | .error e => .error e
      | .ok (kind, st3) =>
        match ElemPayload.parse st3 with
        | .error e => .error e
        | .ok (payload, st4) =>
          .ok ({ span := st.pos, name := name, kind := kind,
                 payload := payload }, st4)

/-- Modelled from the spec: `ast::InlineExport` — inline export annotations,
a run of `(export "name")` groups; kept as the list of export names. Each
loop step fires only when the next token opens a parenthesis and the one
after is the `export` keyword. -/
def parseInlineExport : Nat → P (List String)
  | 0 => fun st => .ok ([], st)
  | fuel + 1 => fun st =>
    if peekLParen st && peek2Kw "export" st then
      match parens (fun p =>
        match expectKw "export" p with
        | .ok (_, p') => parseStr p'
        | .error e => .error e) st with
      | .error e => .error e
      | .ok (n, st') =>
        match parseInlineExport fuel st' with
        | .error e => .error e
        | .ok (ns, st'') => .ok (n :: ns, st'')
    else .ok ([], st)

/-- `TableKind`: an inlined import, a normal limits-plus-type definition, or
an inline-contents definition carrying the element type and the payload. -/
inductive TableKind
  | Import (module : String) (name : String) (ty : TableType)
  | Normal (ty : TableType)
  | Inline (elem : TableElemType) (payload : ElemPayload)
deriving DecidableEq, Repr

/-- `ast::Table`: span of the `table` keyword, optional name, inline export
annotations, and the kind. -/
structure Table where
  span : Nat
  name : Option String
  exports : List String
  kind : TableKind
deriving DecidableEq, Repr

/-- The kind dispatch of `Table::parse`, a lookahead set in priority order:
element-type token → inline contents; bare number → normal table type;
opening parenthesis → inline import; otherwise the lookahead-set error. -/
def parseTableKind : P TableKind := fun st =>
  if peekElemType st then
    match parseElemType st with
    | .error e => .error e
    | .ok (elem, st') =>
      match parens (fun p =>
        match expectKw "elem" p with
        | .error e => .error e
        | .ok (_, p') =>
          ElemPayload.parse_tail
            (if peekLParen p' then some elem else none) p') st' with
      | .error e => .error e
      | .ok (payload, st'') => .ok (.Inline elem payload, st'')
  else if peekNum st then
    match parseTableType st with
    | .error e => .error e
    | .ok (ty, st') => .ok (.Normal ty, st')
  else if peekLParen st then
    match parens (fun p =>
      match expectKw "import" p with
      | .error e => .error e
      | .ok (_, p') =>
        match parseStr p' with
        | .error e => .error e
        | .ok (m, p'') =>
          match parseStr p'' with
          | .error e => .error e
          | .ok (n, p3) => .ok ((m, n), p3)) st with
    | .error e => .error e
    | .ok (mn, st') =>
      match parseTableType st' with
      | .error e => .error e
      | .ok (ty, st'') => .ok (.Import mn.1 mn.2 ty, st'')
  else .error (.expectedOneOf st.pos)

/-- `Table::parse`: keyword `table`, optional name, inline exports, then the
kind dispatch. -/
def Table.parse : P Table := fun st =>
  match expectKw "table" st with
  | .error e => .error e
  | .ok (_, st1) =>
    match parseIdOpt st1 with
    | .error e => .error e
    | .ok (name, st2) =>
      match parseInlineExport st2.toks.length st2 with
      | .error e => .error e
      | .ok (exports, st3) =>
        match parseTableKind st3 with
        | .error e => .error e
        | .ok (kind, st4) =>
          .ok ({ span := st.pos, name := name, exports := exports,
                 kind := kind }, st4)

/-- Does a `TableKind` use the `Import` constructor. -/
def TableKind.isImportK : TableKind → Bool
  | .Import _ _ _ => true
  | _ => false

/-- Does a `TableKind` use the `Normal` constructor. -/
def TableKind.isNormalK : TableKind → Bool
  | .Normal _ => true
  | _ => false

/-- Does a `TableKind` use the `Inline` constructor. -/
def TableKind.isInlineK : TableKind → Bool
  | .Inline _ _ => true
  | _ => false

/-- Does an `ElemKind` use the `Active` constructor. -/
def ElemKind.isActiveK : ElemKind → Bool
  | .Active _ _ => true
  | .Passive => false

/-- The head-token class that makes an element segment active: a bare number
or an opening parenthesis. -/
def startsActive (ts : List Token) : Bool :=
  match ts.head? with
  | some (Token.num _) => true
  | some Token.lparen => true
  | _ => false

/-- Drop a leading `$`-identifier (the optional name) from a token stream. -/
def stripName (ts : List Token) : List Token :=
  match ts with
  | Token.id _ :: rest => rest
  | _ => ts

/-- The head-token class on which `Table::parse` commits to one of its three
kinds: an element-type keyword, a bare number, or an opening parenthesis
(the peeks ignore the position component). -/
def startsTableKind (ts : List Token) : Bool :=
  peekElemType ⟨ts, 0⟩ || peekNum ⟨ts, 0⟩ || peekLParen ⟨ts, 0⟩

/-- C1: the `table` kind dispatch commits by first-token class, in priority
order element type / bare number / parenthesis: `(table 1 2 funcref)`
parses as `Normal`, `(table funcref (elem $f))` parses as `Inline` with a
one-element plain-index payload, and `(table (import "m" "n") 1 2 funcref)`
parses as `Import`; each input is accepted under exactly that kind, as the
parse function is deterministic and the result equalities fix the kind. -/
theorem c1_table_kind_dispatch :
    Table.parse ⟨[.kw "table", .num 1, .num 2, .kw "funcref"], 0⟩ =
      .ok ({ span := 0, name := none, exports := [],
             kind := .Normal ⟨⟨1, some 2⟩, .funcref⟩ }, ⟨[], 4⟩) ∧
    Table.parse ⟨[.kw "table", .kw "funcref", .lparen, .kw "elem",
                  .id "f", .rparen], 0⟩ =
      .ok ({ span := 0, name := none, exports := [],
             kind := .Inline .funcref (.Indices [.Id "f"]) }, ⟨[], 6⟩) ∧
    Table.parse ⟨[.kw "table", .lparen, .kw "import", .str "m", .str "n",
                  .rparen, .num 1, .num 2, .kw "funcref"], 0⟩ =
      .ok ({ span := 0, name := none, exports := [],
             kind := .Import "m" "n" ⟨⟨1, some 2⟩, .funcref⟩ }, ⟨[], 9⟩) ∧
    (TableKind.Normal ⟨⟨1, some 2⟩, .funcref⟩).isNormalK = true ∧
    (TableKind.Normal ⟨⟨1, some 2⟩, .funcref⟩).isInlineK = false ∧
    (TableKind.Normal ⟨⟨1, some 2⟩, .funcref⟩).isImportK = false ∧
    (TableKind.Inline .funcref (.Indices [.Id "f"])).isInlineK = true ∧
    (TableKind.Inline .funcref (.Indices [.Id "f"])).isNormalK = false ∧
    (TableKind.Inline .funcref (.Indices [.Id "f"])).isImportK = false ∧
    (TableKind.Import "m" "n" ⟨⟨1, some 2⟩, .funcref⟩).isImportK = true ∧
    (TableKind.Import "m" "n" ⟨⟨1, some 2⟩, .funcref⟩).isNormalK = false ∧
    (TableKind.Import "m" "n" ⟨⟨1, some 2⟩, .funcref⟩).isInlineK = false := by
  repeat' constructor

/-- C8: every `Table` value produced by parsing has exactly one kind
populated — exactly one of the `Import`, `Normal`, `Inline` discriminators
holds, so an imported table never carries inline contents and vice versa. -/
theorem c8_exactly_one_kind (st : PState) (t : Table) (st' : PState)
    (_h : Table.parse st = .ok (t, st')) :
    t.kind.isImportK.toNat + t.kind.isNormalK.toNat
      + t.kind.isInlineK.toNat = 1 := by
  cases t.kind <;> rfl

/-- Witness for C8 at the concrete parse of `(table 1 2 funcref)`. -/
theorem c8_witness :
    ({ span := 0, name := none, exports := [],
       kind := .Normal ⟨⟨1, some 2⟩, .funcref⟩ } : Table).kind.isImportK.toNat
      + ({ span := 0, name := none, exports := [],
           kind := .Normal ⟨⟨1, some 2⟩, .funcref⟩ } : Table).kind.isNormalK.toNat
      + ({ span := 0, name := none, exports := [],
           kind := .Normal ⟨⟨1, some 2⟩, .funcref⟩ } : Table).kind.isInlineK.toNat
      = 1 :=
  c8_exactly_one_kind ⟨[.kw "table", .num 1, .num 2, .kw "funcref"], 0⟩
    { span := 0, name := none, exports := [],
      kind := .Normal ⟨⟨1, some 2⟩, .funcref⟩ } ⟨[], 4⟩ rfl

theorem expectKw_cons (k : String) (ts : List Token) (p : Nat) :
    expectKw k ⟨Token.kw k :: ts, p⟩ = .ok ((), ⟨ts, p + 1⟩) := by
  simp [expectKw, advance]

theorem parseIdOpt_ok (ts : List Token) (p : Nat) :
    ∃ n q, parseIdOpt ⟨ts, p⟩ = .ok (n, ⟨stripName ts, q⟩) := by
  cases ts with
  | nil => exact ⟨none, p, rfl⟩
  | cons hd rest =>
    cases hd
    case id s => exact ⟨some s, p + 1, rfl⟩
    all_goals exact ⟨none, p, rfl⟩

theorem peek_startsActive (ts : List Token) (p : Nat) :
    (peekNum ⟨ts, p⟩ || peekLParen ⟨ts, p⟩) = startsActive ts := by
  cases ts with
  | nil => rfl
  | cons hd rest => cases hd <;> rfl

theorem isActiveK_false (k : ElemKind) (h : k.isActiveK = false) :
    k = .Passive := by
  cases k with
  | Passive => rfl
  | Active t o => simp [ElemKind.isActiveK] at h

theorem parseElemKind_active (st : PState) (k : ElemKind) (st' : PState)
    (h : parseElemKind st = .ok (k, st')) :
    k.isActiveK = (peekNum st || peekLParen st) := by
  rw [parseElemKind] at h
  split at h
  · rename_i hcond
    split at h
    · exact absurd h (by simp)
    · split at h
      · exact absurd h (by simp)
      · injection h with h1
        injection h1 with hk hst
        subst hk
        simp [ElemKind.isActiveK, hcond]
  · rename_i hcond
    injection h with h1
    injection h1 with hk hst
    subst hk
    simp only [Bool.not_eq_true] at hcond
    simp [ElemKind.isActiveK, hcond]

/-- C2: after the keyword `elem` and the optional name, the segment is
parsed as Active if and only if the next token is a number or opens a
parenthesis, and otherwise it is Passive (carrying no table or offset by
construction of the `Passive` constructor); `(elem func $f $g)` parses as
Passive and `(elem (offset (i32.const 0)) func $f)` parses as Active. -/
theorem c2_elem_active_iff :
    (∀ (ts : List Token) (p : Nat) (e : Elem) (st' : PState),
      Elem.parse ⟨Token.kw "elem" :: ts, p⟩ = .ok (e, st') →
      e.kind.isActiveK = startsActive (stripName ts)
        ∧ (startsActive (stripName ts) = false → e.kind = .Passive))
    ∧ Elem.parse ⟨[.kw "elem", .kw "func", .id "f", .id "g"], 0⟩ =
        .ok ({ span := 0, name := none, kind := .Passive,
               payload := .Indices [.Id "f", .Id "g"] }, ⟨[], 4⟩)
    ∧ Elem.parse ⟨[.kw "elem", .lparen, .kw "offset", .lparen,
                   .kw "i32.const", .num 0, .rparen, .rparen, .kw "func",
                   .id "f"], 0⟩ =
        .ok ({ span := 0, name := none,
               kind := .Active (.Num 0)
                 ⟨[.lparen, .kw "i32.const", .num 0, .rparen]⟩,
               payload := .Indices [.Id "f"] }, ⟨[], 10⟩) := by
  refine ⟨?_, rfl, rfl⟩
  intro ts p e st' h
  obtain ⟨n, q, hid⟩ := parseIdOpt_ok ts (p + 1)
  simp only [Elem.parse, expectKw_cons, hid] at h
  have hsplit :
      ∃ k stk, parseElemKind ⟨stripName ts, q⟩ = .ok (k, stk) ∧ e.kind = k := by
    cases hk : parseElemKind ⟨stripName ts, q⟩ with
    | error err => simp [hk] at h
    | ok pr =>
      obtain ⟨k, stk⟩ := pr
      simp only [hk] at h
      refine ⟨k, stk, rfl, ?_⟩
      cases hp : ElemPayload.parse stk with
      | error err => simp [hp] at h
      | ok pr2 =>
        obtain ⟨pay, st4⟩ := pr2
        simp only [hp] at h
        injection h with h1
        injection h1 with he hst
        rw [← he]
  obtain ⟨k, stk, hk, hek⟩ := hsplit
  have := parseElemKind_active _ _ _ hk
  rw [peek_startsActive] at this
  rw [hek]
  refine ⟨this, fun hfalse => ?_⟩
  exact isActiveK_false k (this.trans hfalse)

/-- Witness for C2's general clause at the passive input
`(elem func $f $g)`. -/
theorem c2_witness :
    ({ span := 0, name := none, kind := .Passive,
       payload := .Indices [.Id "f", .Id "g"] } : Elem).kind.isActiveK
      = startsActive (stripName [.kw "func", .id "f", .id "g"])
    ∧ (startsActive (stripName [.kw "func", .id "f", .id "g"]) = false →
        ({ span := 0, name := none, kind := .Passive,
           payload := .Indices [.Id "f", .Id "g"] } : Elem).kind = .Passive) :=
  c2_elem_active_iff.1 [.kw "func", .id "f", .id "g"] 0
    { span := 0, name := none, kind := .Passive,
      payload := .Indices [.Id "f", .Id "g"] } ⟨[], 4⟩ rfl

/-- C3: in an active segment the target is found by two-token lookahead —
a nested `(table <index>)` group yields its explicit index, a bare number is
the target directly, and otherwise the target defaults to index 0; the
segments `(elem (offset (i32.const 5)) $f)` and
`(elem (table 0) (offset (i32.const 5)) $f)` parse to identical `Active`
kinds with target index 0, so explicit and defaulted zero are
indistinguishable post-parse. -/
theorem c3_elem_target_lookahead :
    (∀ (n : Nat) (rest : List Token) (p : Nat),
      parseElemTarget ⟨Token.lparen :: Token.kw "table" :: Token.num n ::
          Token.rparen :: rest, p⟩
        = .ok (some (.Num n), ⟨rest, p + 4⟩))
    ∧ (∀ (n : Nat) (rest : List Token) (p : Nat),
      peek2Kw "table" ⟨Token.num n :: rest, p⟩ = false →
      parseElemTarget ⟨Token.num n :: rest, p⟩
        = .ok (some (.Num n), ⟨rest, p + 1⟩))
    ∧ (∀ (st : PState),
      peek2Kw "table" st = false → peekNum st = false →
      parseElemTarget st = .ok (none, st))
    ∧ Elem.parse ⟨[.kw "elem", .lparen, .kw "offset", .lparen,
        .kw "i32.const", .num 5, .rparen, .rparen, .id "f"], 0⟩
      = .ok ({ span := 0, name := none,
               kind := .Active (.Num 0)
                 ⟨[.lparen, .kw "i32.const", .num 5, .rparen]⟩,
               payload := .Indices [.Id "f"] }, ⟨[], 9⟩)
    ∧ Elem.parse ⟨[.kw "elem", .lparen, .kw "table", .num 0, .rparen,
        .lparen, .kw "offset", .lparen, .kw "i32.const", .num 5, .rparen,
        .rparen, .id "f"], 0⟩
      = .ok ({ span := 0, name := none,
               kind := .Active (.Num 0)
                 ⟨[.lparen, .kw "i32.const", .num 5, .rparen]⟩,
               payload := .Indices [.Id "f"] }, ⟨[], 13⟩) := by
  refine ⟨?_, ?_, ?_, rfl, rfl⟩
  · intro n rest p
    rfl
  · intro n rest p h
    simp [parseElemTarget, h, peekNum, parseU32, advance]
  · intro st h1 h2
    simp [parseElemTarget, h1, h2]

/-- Witness for C3's general clauses at concrete inputs. -/
theorem c3_witness :
    parseElemTarget ⟨[Token.num 7, Token.lparen, Token.kw "i32.const",
        Token.num 0, Token.rparen], 2⟩
      = .ok (some (.Num 7), ⟨[Token.lparen, Token.kw "i32.const",
          Token.num 0, Token.rparen], 3⟩) :=
  c3_elem_target_lookahead.2.1 7
    [Token.lparen, Token.kw "i32.const", Token.num 0, Token.rparen] 2
    (by decide)

theorem parse_tail_shape_some (ty : TableElemType) (st : PState)
    (r : ElemPayload) (st' : PState)
    (h : ElemPayload.parse_tail (some ty) st = .ok (r, st')) :
    ∃ es, r = .Exprs ty es := by
  rw [ElemPayload.parse_tail] at h
  split at h
  · rename_i es stx heq
    injection h with h1
    injection h1 with hr hst
    exact ⟨es, hr.symm⟩
  · exact absurd h (by simp)

theorem parse_tail_shape_none (st : PState) (r : ElemPayload) (st' : PState)
    (h : ElemPayload.parse_tail none st = .ok (r, st')) :
    ∃ is, r = .Indices is := by
  rw [ElemPayload.parse_tail] at h
  split at h
  · rename_i is stx heq
    injection h with h1
    injection h1 with hr hst
    exact ⟨is, hr.symm⟩
  · exact absurd h (by simp)

/-- C4 counterexample: with an element type already established, the claimed
entry form `(ref.null <type>)` is rejected — the code parses `ref.null` with
no argument, so the trailing type token is unconsumed input inside the
group and parsing fails instead of yielding an absent entry. -/
theorem c4_counterexample :
    ElemPayload.parse_tail (some .funcref)
      ⟨[.lparen, .kw "ref.null", .kw "funcref", .rparen], 0⟩
      = .error (.trailing 2) := rfl

/-- C4 (amended): with an established element type every payload entry is a
parenthesized group that is either bare `(ref.null)` — no type argument —
yielding an absent entry, or `(ref.func <index>)` yielding a present
function reference, and any other group head is rejected by the lookahead
set; the result is always an `Exprs` payload carrying the established type.
With no established type, an optional leading `func` keyword is consumed
and the remainder is a flat list of indices. -/
theorem c4_payload_tail :
    (∀ (ty : TableElemType) (st : PState) (r : ElemPayload) (st' : PState),
      ElemPayload.parse_tail (some ty) st = .ok (r, st') →
      ∃ es, r = .Exprs ty es)
    ∧ (∀ (st : PState) (r : ElemPayload) (st' : PState),
      ElemPayload.parse_tail none st = .ok (r, st') →
      ∃ is, r = .Indices is)
    ∧ (∀ (rest : List Token) (p : Nat),
      parseExprEntry ⟨Token.lparen :: Token.kw "ref.null" :: Token.rparen ::
          rest, p⟩ = .ok (none, ⟨rest, p + 3⟩))
    ∧ (∀ (n : Nat) (rest : List Token) (p : Nat),
      parseExprEntry ⟨Token.lparen :: Token.kw "ref.func" :: Token.num n ::
          Token.rparen :: rest, p⟩ = .ok (some (.Num n), ⟨rest, p + 4⟩))
    ∧ (∀ (s : String) (rest : List Token) (p : Nat),
      s ≠ "ref.null" → s ≠ "ref.func" →
      parseExprEntry ⟨Token.lparen :: Token.kw s :: rest, p⟩
        = .error (.expectedOneOf (p + 1)))
    ∧ ElemPayload.parse_tail (some .funcref)
        ⟨[.lparen, .kw "ref.null", .rparen, .lparen, .kw "ref.func",
          .num 3, .rparen], 0⟩
      = .ok (.Exprs .funcref [none, some (.Num 3)], ⟨[], 7⟩)
    ∧ ElemPayload.parse_tail none ⟨[.kw "func", .id "f", .id "g"], 0⟩
      = .ok (.Indices [.Id "f", .Id "g"], ⟨[], 3⟩)
    ∧ ElemPayload.parse_tail none ⟨[.id "f", .id "g"], 0⟩
      = .ok (.Indices [.Id "f", .Id "g"], ⟨[], 2⟩) := by
  refine ⟨parse_tail_shape_some, parse_tail_shape_none, ?_, ?_, ?_,
    rfl, rfl, rfl⟩
  · intro rest p
    rfl
  · intro n rest p
    rfl
  · intro s rest p h1 h2
    simp [parseExprEntry, parens, advance, peekKw, h1, h2]

/-- Witness for C4's general clauses at concrete inputs. -/
theorem c4_witness :
    (∃ es, (ElemPayload.Exprs TableElemType.funcref [some (Index.Num 3)])
        = ElemPayload.Exprs TableElemType.funcref es)
    ∧ (∃ is, (ElemPayload.Indices [Index.Id "f"]) = ElemPayload.Indices is)
    ∧ parseExprEntry ⟨[Token.lparen, Token.kw "unreachable", Token.rparen],
        5⟩ = .error (.expectedOneOf 6) :=
  ⟨c4_payload_tail.1 .funcref ⟨[.lparen, .kw "ref.func", .num 3, .rparen], 0⟩
      (.Exprs .funcref [some (.Num 3)]) ⟨[], 4⟩ rfl,
   c4_payload_tail.2.1 ⟨[.id "f"], 0⟩ (.Indices [.Id "f"]) ⟨[], 1⟩ rfl,
   c4_payload_tail.2.2.2.2.1 "unreachable" [Token.rparen] 5
     (by decide) (by decide)⟩

theorem takeBalanced_append :
    ∀ (e : List Token) (d : Nat) (rest : List Token),
      takeBalanced e d = some (e, []) →
      takeBalanced (e ++ Token.rparen :: rest) d
        = some (e, Token.rparen :: rest) := by
  intro e
  induction e with
  | nil =>
    intro d rest h
    cases d with
    | zero => rfl
    | succ d => exact absurd h (by simp [takeBalanced])
  | cons hd tl ih =>
    intro d rest h
    cases hd with
    | lparen =>
      simp only [takeBalanced, List.cons_append, Option.map_eq_some'] at h ⊢
      obtain ⟨⟨c, r⟩, ha, hb⟩ := h
      injection hb with h1 h2
      injection h1 with h3 hc
      subst hc; subst h2
      exact ⟨⟨c, Token.rparen :: rest⟩, ih (d + 1) rest ha, rfl⟩
    | rparen =>
      cases d with
      | zero =>
        injection h with h1
        injection h1 with h2 h3
        exact absurd h2 (by simp)
      | succ d =>
        simp only [takeBalanced, List.cons_append, Option.map_eq_some']
          at h ⊢
        obtain ⟨⟨c, r⟩, ha, hb⟩ := h
        injection hb with h1 h2
        injection h1 with h3 hc
        subst hc; subst h2
        exact ⟨⟨c, Token.rparen :: rest⟩, ih d rest ha, rfl⟩
    | kw s =>
      simp only [takeBalanced, List.cons_append, Option.map_eq_some'] at h ⊢
      obtain ⟨⟨c, r⟩, ha, hb⟩ := h
      injection hb with h1 h2
      injection h1 with h3 hc
      subst hc; subst h2
      exact ⟨⟨c, Token.rparen :: rest⟩, ih d rest ha, rfl⟩
    | id s =>
      simp only [takeBalanced, List.cons_append, Option.map_eq_some'] at h ⊢
      obtain ⟨⟨c, r⟩, ha, hb⟩ := h
      injection hb with h1 h2
      injection h1 with h3 hc
      subst hc; subst h2
      exact ⟨⟨c, Token.rparen :: rest⟩, ih d rest ha, rfl⟩
    | num n =>
      simp only [takeBalanced, List.cons_append, Option.map_eq_some'] at h ⊢
      obtain ⟨⟨c, r⟩, ha, hb⟩ := h
      injection hb with h1 h2
      injection h1 with h3 hc
      subst hc; subst h2
      exact ⟨⟨c, Token.rparen :: rest⟩, ih d rest ha, rfl⟩
    | str s =>
      simp only [takeBalanced, List.cons_append, Option.map_eq_some'] at h ⊢
      obtain ⟨⟨c, r⟩, ha, hb⟩ := h
      injection hb with h1 h2
      injection h1 with h3 hc
      subst hc; subst h2
      exact ⟨⟨c, Token.rparen :: rest⟩, ih d rest ha, rfl⟩

theorem parseExpression_append (e rest : List Token) (p : Nat)
    (h : takeBalanced e 0 = some (e, [])) :
    parseExpression ⟨e ++ Token.rparen :: rest, p⟩
      = .ok (⟨e⟩, ⟨Token.rparen :: rest, p + e.length⟩) := by
  simp [parseExpression, takeBalanced_append e 0 rest h]

/-- C5: the offset of an active segment is a required parenthesized constant
expression whose leading `offset` keyword is optional and discarded:
over any balanced expression token run `e` not itself starting with the
`offset` keyword, parsing `(offset e)` and `(e)` both succeed with the same
captured expression `e` (the keyword is not retained), and two concrete
segments differing only in the keyword parse to identical Active kinds. -/
theorem c5_offset_keyword_decorative :
    (∀ (e rest : List Token) (p : Nat),
      takeBalanced e 0 = some (e, []) →
      e.head? ≠ some (Token.kw "offset") →
      parseElemOffset ⟨Token.lparen :: Token.kw "offset" ::
          (e ++ Token.rparen :: rest), p⟩
        = .ok (⟨e⟩, ⟨rest, p + e.length + 3⟩)
      ∧ parseElemOffset ⟨Token.lparen :: (e ++ Token.rparen :: rest), p⟩
        = .ok (⟨e⟩, ⟨rest, p + e.length + 2⟩))
    ∧ Elem.parse ⟨[.kw "elem", .lparen, .kw "offset", .lparen,
        .kw "i32.const", .num 7, .rparen, .rparen], 0⟩
      = .ok ({ span := 0, name := none,
               kind := .Active (.Num 0)
                 ⟨[.lparen, .kw "i32.const", .num 7, .rparen]⟩,
               payload := .Indices [] }, ⟨[], 8⟩)
    ∧ Elem.parse ⟨[.kw "elem", .lparen, .lparen, .kw "i32.const", .num 7,
        .rparen, .rparen], 0⟩
      = .ok ({ span := 0, name := none,
               kind := .Active (.Num 0)
                 ⟨[.lparen, .kw "i32.const", .num 7, .rparen]⟩,
               payload := .Indices [] }, ⟨[], 7⟩) := by
  refine ⟨?_, rfl, rfl⟩
  intro e rest p hb hhd
  have hpe : ∀ q, parseExpression ⟨e ++ Token.rparen :: rest, q⟩
      = .ok (⟨e⟩, ⟨Token.rparen :: rest, q + e.length⟩) :=
    fun q => parseExpression_append e rest q hb
  have hfalse : peekKw "offset" ⟨e ++ Token.rparen :: rest, p + 1⟩
      = false := by
    cases e with
    | nil => rfl
    | cons hd tl =>
      have hne : hd ≠ Token.kw "offset" :=
        fun hcontra => hhd (by rw [hcontra]; rfl)
      simp [peekKw, hne]
  constructor
  · simp [parseElemOffset, parens, advance, peekKw, hpe]
    omega
  · simp [parseElemOffset, parens, advance, hfalse, hpe]
    omega

/-- Witness for C5's general clause at the expression `(i32.const 9)`. -/
theorem c5_witness :
    parseElemOffset ⟨Token.lparen :: Token.kw "offset" ::
        ([Token.lparen, Token.kw "i32.const", Token.num 9, Token.rparen]
          ++ Token.rparen :: []), 0⟩
      = .ok (⟨[Token.lparen, Token.kw "i32.const", Token.num 9,
          Token.rparen]⟩, ⟨[], 0 + 4 + 3⟩)
    ∧ parseElemOffset ⟨Token.lparen ::
        ([Token.lparen, Token.kw "i32.const", Token.num 9, Token.rparen]
          ++ Token.rparen :: []), 0⟩
      = .ok (⟨[Token.lparen, Token.kw "i32.const", Token.num 9,
          Token.rparen]⟩, ⟨[], 0 + 4 + 2⟩) :=
  c5_offset_keyword_decorative.1
    [Token.lparen, Token.kw "i32.const", Token.num 9, Token.rparen] [] 0
    (by decide) (by decide)

theorem parseTableKind_funcref_elem (rest : List Token) (p : Nat)
    (k : TableKind) (st' : PState)
    (h : parseTableKind ⟨Token.kw "funcref" :: Token.lparen ::
        Token.kw "elem" :: rest, p⟩ = .ok (k, st')) :
    ∃ pay, k = .Inline .funcref pay
      ∧ (rest.head? = some Token.lparen → ∃ es, pay = .Exprs .funcref es)
      ∧ (rest.head? ≠ some Token.lparen → ∃ is, pay = .Indices is) := by
  simp only [parseTableKind,
    show peekElemType ⟨Token.kw "funcref" :: Token.lparen ::
        Token.kw "elem" :: rest, p⟩ = true from rfl,
    show parseElemType ⟨Token.kw "funcref" :: Token.lparen ::
        Token.kw "elem" :: rest, p⟩ = Except.ok (TableElemType.funcref,
        ⟨Token.lparen :: Token.kw "elem" :: rest, p + 1⟩) from rfl,
    parens, advance, List.tail_cons, expectKw_cons,
    eq_self_iff_true, if_true] at h
  split at h
  · exact absurd h (by simp)
  · rename_i x payload st4 heq
    injection h with h1
    injection h1 with hk hst
    split at heq
    · rename_i a stq heq2
      split at heq
      · injection heq with heq3
        injection heq3 with ha hst4
        subst ha
        split at heq2
        · rename_i hcond
          have hhd : rest.head? = some Token.lparen := by
            simpa [peekLParen] using hcond
          obtain ⟨es, hes⟩ := parse_tail_shape_some _ _ _ _ heq2
          exact ⟨a, hk.symm, fun _ => ⟨es, hes⟩,
            fun hn => absurd hhd hn⟩
        · rename_i hcond
          have hhd : ¬ rest.head? = some Token.lparen := by
            simpa [peekLParen] using hcond
          obtain ⟨is, his⟩ := parse_tail_shape_none _ _ _ heq2
          exact ⟨a, hk.symm, fun hc => absurd hc hhd,
            fun _ => ⟨is, his⟩⟩
      · exact absurd heq (by simp)
    · exact absurd heq (by simp)

/-- C6: in the inline-contents form, after the element type the parser
requires a parenthesized group beginning with the keyword `elem` (any other
group head fails on the `elem` expectation), and inside that group the
payload representation is chosen by one-token lookahead after `elem`: an
opening parenthesis selects the typed-expression list carrying the table's
element type, anything else the plain index list. -/
theorem c6_inline_contents_payload :
    (∀ (rest : List Token) (p : Nat) (t : Table) (st' : PState),
      Table.parse ⟨Token.kw "table" :: Token.kw "funcref" ::
          Token.lparen :: Token.kw "elem" :: rest, p⟩ = .ok (t, st') →
      ∃ pay, t.kind = .Inline .funcref pay
        ∧ (rest.head? = some Token.lparen → ∃ es, pay = .Exprs .funcref es)
        ∧ (rest.head? ≠ some Token.lparen → ∃ is, pay = .Indices is))
    ∧ Table.parse ⟨[.kw "table", .kw "funcref", .lparen, .kw "foo",
        .id "f", .rparen], 0⟩ = .error (.expectedToken "elem" 3)
    ∧ Table.parse ⟨[.kw "table", .kw "funcref", .lparen, .kw "elem",
        .lparen, .kw "ref.func", .num 0, .rparen, .rparen], 0⟩
      = .ok ({ span := 0, name := none, exports := [],
               kind := .Inline .funcref (.Exprs .funcref [some (.Num 0)]) },
             ⟨[], 9⟩)
    ∧ Table.parse ⟨[.kw "table", .kw "funcref", .lparen, .kw "elem",
        .num 1, .num 2, .rparen], 0⟩
      = .ok ({ span := 0, name := none, exports := [],
               kind := .Inline .funcref (.Indices [.Num 1, .Num 2]) },
             ⟨[], 7⟩) := by
  refine ⟨?_, rfl, rfl, rfl⟩
  intro rest p t st' h
  simp only [Table.parse, expectKw_cons,
    show parseIdOpt ⟨Token.kw "funcref" :: Token.lparen ::
        Token.kw "elem" :: rest, p + 1⟩ = .ok (none,
        ⟨Token.kw "funcref" :: Token.lparen :: Token.kw "elem" :: rest,
         p + 1⟩) from rfl,
    List.length_cons, parseInlineExport,
    show peekLParen ⟨Token.kw "funcref" :: Token.lparen ::
        Token.kw "elem" :: rest, p + 1⟩ = false from rfl,
    Bool.false_and, Bool.false_eq_true, if_false] at h
  cases hk : parseTableKind ⟨Token.kw "funcref" :: Token.lparen ::
      Token.kw "elem" :: rest, p + 1⟩ with
  | error err => simp [hk] at h
  | ok pr =>
    obtain ⟨kind, st4⟩ := pr
    simp only [hk] at h
    injection h with h1
    injection h1 with ht hst
    obtain ⟨pay, hkind, h1, h2⟩ :=
      parseTableKind_funcref_elem rest (p + 1) kind st4 hk
    refine ⟨pay, ?_, h1, h2⟩
    rw [← ht]
    exact hkind

/-- Witness for C6's general clause at the input
`(table funcref (elem $g))`. -/
theorem c6_witness :
    ∃ pay, ({ span := 0, name := none, exports := [],
              kind := .Inline .funcref (.Indices [.Id "g"]) } : Table).kind
        = .Inline .funcref pay
      ∧ (([Token.id "g", Token.rparen] : List Token).head?
          = some Token.lparen → ∃ es, pay = .Exprs .funcref es)
      ∧ (([Token.id "g", Token.rparen] : List Token).head?
          ≠ some Token.lparen → ∃ is, pay = .Indices is) :=
  c6_inline_contents_payload.1 [Token.id "g", Token.rparen] 0
    { span := 0, name := none, exports := [],
      kind := .Inline .funcref (.Indices [.Id "g"]) } ⟨[], 6⟩ rfl

theorem parseIdOpt_not_id (r : List Token) (q : Nat)
    (h : ∀ s, r.head? ≠ some (Token.id s)) :
    parseIdOpt ⟨r, q⟩ = .ok (none, ⟨r, q⟩) := by
  cases r with
  | nil => rfl
  | cons hd tl =>
    cases hd with
    | id s =>
      exact absurd (rfl : (Token.id s :: tl).head? = some (Token.id s))
        (h s)
    | lparen => rfl
    | rparen => rfl
    | kw s => rfl
    | num n => rfl
    | str s => rfl

theorem parseInlineExport_stop (fuel : Nat) (ts : List Token) (q : Nat)
    (h : ts.head? ≠ some Token.lparen) :
    parseInlineExport fuel ⟨ts, q⟩ = .ok ([], ⟨ts, q⟩) := by
  cases fuel with
  | zero => rfl
  | succ f =>
    have hf : peekLParen ⟨ts, q⟩ = false := by simp [peekLParen, h]
    simp [parseInlineExport, hf]

theorem parseTableKind_reject (r : List Token) (q : Nat)
    (h1 : peekElemType ⟨r, q⟩ = false) (h2 : peekNum ⟨r, q⟩ = false)
    (h3 : peekLParen ⟨r, q⟩ = false) :
    parseTableKind ⟨r, q⟩ = .error (.expectedOneOf q) := by
  simp [parseTableKind, h1, h2, h3]

/-- C7: when, after `table`'s optional name and export annotations, the next
token is neither an element-type keyword nor a bare number nor an opening
parenthesis, table parsing fails with the lookahead-set ("expected one of")
error positioned immediately after the name/export fields, and no table
value is produced; in particular `(table)` is rejected this way at
position 1, just past the `table` keyword. -/
theorem c7_table_reject :
    (∀ (x : String) (r : List Token) (p : Nat),
      startsTableKind r = false →
      Table.parse ⟨Token.kw "table" :: Token.id x :: r, p⟩
        = .error (.expectedOneOf (p + 2)))
    ∧ (∀ (r : List Token) (p : Nat),
      startsTableKind r = false →
      (∀ s, r.head? ≠ some (Token.id s)) →
      Table.parse ⟨Token.kw "table" :: r, p⟩
        = .error (.expectedOneOf (p + 1)))
    ∧ Table.parse ⟨[Token.kw "table"], 0⟩ = .error (.expectedOneOf 1) := by
  refine ⟨?_, ?_, rfl⟩
  · intro x r p hfalse
    have hcomp : (peekElemType ⟨r, 0⟩ = false ∧ peekNum ⟨r, 0⟩ = false)
        ∧ peekLParen ⟨r, 0⟩ = false := by
      simpa [startsTableKind] using hfalse
    obtain ⟨⟨h1, h2⟩, h3⟩ := hcomp
    have hnlp : r.head? ≠ some Token.lparen := by
      simpa [peekLParen] using (h3 : peekLParen ⟨r, 0⟩ = false)
    simp only [Table.parse, expectKw_cons,
      show parseIdOpt ⟨Token.id x :: r, p + 1⟩
        = .ok (some x, ⟨r, p + 2⟩) from rfl,
      parseInlineExport_stop _ r (p + 2) hnlp,
      parseTableKind_reject r (p + 2)
        (show peekElemType ⟨r, p + 2⟩ = false from h1)
        (show peekNum ⟨r, p + 2⟩ = false from h2)
        (show peekLParen ⟨r, p + 2⟩ = false from h3)]
  · intro r p hfalse hnotid
    have hcomp : (peekElemType ⟨r, 0⟩ = false ∧ peekNum ⟨r, 0⟩ = false)
        ∧ peekLParen ⟨r, 0⟩ = false := by
      simpa [startsTableKind] using hfalse
    obtain ⟨⟨h1, h2⟩, h3⟩ := hcomp
    have hnlp : r.head? ≠ some Token.lparen := by
      simpa [peekLParen] using (h3 : peekLParen ⟨r, 0⟩ = false)
    simp only [Table.parse, expectKw_cons,
      parseIdOpt_not_id r (p + 1) hnotid,
      parseInlineExport_stop _ r (p + 1) hnlp,
      parseTableKind_reject r (p + 1)
        (show peekElemType ⟨r, p + 1⟩ = false from h1)
        (show peekNum ⟨r, p + 1⟩ = false from h2)
        (show peekLParen ⟨r, p + 1⟩ = false from h3)]

/-- Witness for C7's general clauses at concrete inputs. -/
theorem c7_witness :
    Table.parse ⟨[Token.kw "table", Token.id "t", Token.kw "global"], 0⟩
      = .error (.expectedOneOf 2)
    ∧ Table.parse ⟨[Token.kw "table", Token.kw "global"], 3⟩
      = .error (.expectedOneOf 4) :=
  ⟨c7_table_reject.1 "t" [Token.kw "global"] 0 (by decide),
   c7_table_reject.2.1 [Token.kw "global"] 3 (by decide)
     (fun s => by simp)⟩

/-- C9: the standalone element-payload entry point first reads an optional
element-type token at the head of the remaining input — when one is present
the payload is the typed-expression list carrying that type, and when
absent it is the plain index list; hence a standalone `elem` segment such
as `(elem funcref (ref.func 0))` introduces the expression-list form with
no enclosing table. -/
theorem c9_standalone_payload :
    (∀ (st : PState) (r : ElemPayload) (st' : PState),
      ElemPayload.parse st = .ok (r, st') →
      peekElemType st = false → ∃ is, r = .Indices is)
    ∧ (∀ (ts : List Token) (p : Nat) (r : ElemPayload) (st' : PState),
      ElemPayload.parse ⟨Token.kw "funcref" :: ts, p⟩ = .ok (r, st') →
      ∃ es, r = .Exprs .funcref es)
    ∧ (∀ (ts : List Token) (p : Nat) (r : ElemPayload) (st' : PState),
      ElemPayload.parse ⟨Token.kw "anyref" :: ts, p⟩ = .ok (r, st') →
      ∃ es, r = .Exprs .anyref es)
    ∧ Elem.parse ⟨[.kw "elem", .kw "funcref", .lparen, .kw "ref.func",
        .num 0, .rparen], 0⟩
      = .ok ({ span := 0, name := none, kind := .Passive,
               payload := .Exprs .funcref [some (.Num 0)] }, ⟨[], 6⟩) := by
  refine ⟨?_, ?_, ?_, rfl⟩
  · intro st r st' h hf
    have he : parseElemTypeOpt st = .ok (none, st) := by
      simp [parseElemTypeOpt, hf]
    simp only [ElemPayload.parse, he] at h
    exact parse_tail_shape_none _ _ _ h
  · intro ts p r st' h
    have he : parseElemTypeOpt ⟨Token.kw "funcref" :: ts, p⟩
        = .ok (some .funcref, ⟨ts, p + 1⟩) := rfl
    simp only [ElemPayload.parse, he] at h
    exact parse_tail_shape_some _ _ _ _ h
  · intro ts p r st' h
    have he : parseElemTypeOpt ⟨Token.kw "anyref" :: ts, p⟩
        = .ok (some .anyref, ⟨ts, p + 1⟩) := rfl
    simp only [ElemPayload.parse, he] at h
    exact parse_tail_shape_some _ _ _ _ h

/-- Witness for C9's general clauses at concrete inputs. -/
theorem c9_witness :
    (∃ is, (ElemPayload.Indices [Index.Id "f"]) = ElemPayload.Indices is)
    ∧ (∃ es, (ElemPayload.Exprs TableElemType.funcref [some (Index.Num 0)])
        = ElemPayload.Exprs TableElemType.funcref es) :=
  ⟨c9_standalone_payload.1 ⟨[Token.id "f"], 0⟩ (.Indices [.Id "f"])
      ⟨[], 1⟩ rfl (by decide),
   c9_standalone_payload.2.1 [Token.lparen, Token.kw "ref.func",
      Token.num 0, Token.rparen] 0 (.Exprs .funcref [some (.Num 0)])
      ⟨[], 5⟩ rfl⟩

/-- C10: a bare-number target of an active segment is stored as an
already-resolved numeric index (`Num`, never symbolic), a symbolic table
target is expressible only through the parenthesized `(table $id)` form,
and a bare `$id` after `elem` is consumed as the segment's optional name —
after which the segment is classified with no target shorthand, defaulting
to table index 0. -/
theorem c10_target_resolution :
    (∀ (n : Nat) (r : List Token) (p : Nat) (e : Elem) (st' : PState),
      Elem.parse ⟨Token.kw "elem" :: Token.num n :: r, p⟩ = .ok (e, st') →
      ∃ off, e.kind = .Active (.Num n) off)
    ∧ Elem.parse ⟨[.kw "elem", .lparen, .kw "table", .id "t", .rparen,
        .lparen, .kw "i32.const", .num 0, .rparen], 0⟩
      = .ok ({ span := 0, name := none,
               kind := .Active (.Id "t") ⟨[.kw "i32.const", .num 0]⟩,
               payload := .Indices [] }, ⟨[], 9⟩)
    ∧ Elem.parse ⟨[.kw "elem", .id "t", .lparen, .kw "i32.const", .num 0,
        .rparen], 0⟩
      = .ok ({ span := 0, name := some "t",
               kind := .Active (.Num 0) ⟨[.kw "i32.const", .num 0]⟩,
               payload := .Indices [] }, ⟨[], 6⟩) := by
  refine ⟨?_, rfl, rfl⟩
  intro n r p e st' h
  simp only [Elem.parse, expectKw_cons,
    show parseIdOpt ⟨Token.num n :: r, p + 1⟩
      = .ok (none, ⟨Token.num n :: r, p + 1⟩) from rfl] at h
  cases hpk : peek2Kw "table" ⟨Token.num n :: r, p + 1⟩ with
  | true =>
    have ht : parseElemTarget ⟨Token.num n :: r, p + 1⟩
        = .error (.expectedToken "(" (p + 1)) := by
      simp [parseElemTarget, hpk, parens]
    have hk : parseElemKind ⟨Token.num n :: r, p + 1⟩
        = .error (.expectedToken "(" (p + 1)) := by
      simp [parseElemKind,
        show peekNum ⟨Token.num n :: r, p + 1⟩ = true from rfl, ht]
    simp [hk] at h
  | false =>
    have ht : parseElemTarget ⟨Token.num n :: r, p + 1⟩
        = .ok (some (.Num n), ⟨r, p + 2⟩) := by
      simp [parseElemTarget, hpk,
        show peekNum ⟨Token.num n :: r, p + 1⟩ = true from rfl,
        show parseU32 ⟨Token.num n :: r, p + 1⟩
          = .ok (n, ⟨r, p + 2⟩) from rfl]
    cases ho : parseElemOffset ⟨r, p + 2⟩ with
    | error err =>
      have hk : parseElemKind ⟨Token.num n :: r, p + 1⟩ = .error err := by
        simp [parseElemKind,
          show peekNum ⟨Token.num n :: r, p + 1⟩ = true from rfl, ht, ho]
      simp [hk] at h
    | ok pr =>
      obtain ⟨off, st2⟩ := pr
      have hk : parseElemKind ⟨Token.num n :: r, p + 1⟩
          = .ok (.Active (.Num n) off, st2) := by
        simp [parseElemKind,
          show peekNum ⟨Token.num n :: r, p + 1⟩ = true from rfl, ht, ho]
      simp only [hk] at h
      cases hp : ElemPayload.parse st2 with
      | error err => simp [hp] at h
      | ok pr2 =>
        obtain ⟨pay, st4⟩ := pr2
        simp only [hp] at h
        injection h with h1
        injection h1 with he hst
        exact ⟨off, by rw [← he]⟩

/-- Witness for C10's general clause at the segment
`(elem 2 (i32.const 0) $f)`. -/
theorem c10_witness :
    ∃ off, ({ span := 0, name := none,
              kind := .Active (.Num 2) ⟨[.kw "i32.const", .num 0]⟩,
              payload := .Indices [.Id "f"] } : Elem).kind
      = .Active (.Num 2) off :=
  c10_target_resolution.1 2
    [Token.lparen, Token.kw "i32.const", Token.num 0, Token.rparen,
     Token.id "f"] 0
    { span := 0, name := none,
      kind := .Active (.Num 2) ⟨[.kw "i32.const", .num 0]⟩,
      payload := .Indices [.Id "f"] } ⟨[], 7⟩ rfl

end Wat
